import Mathlib

/-!
Verification of the FrancoDB Python client driver (src/libaries/francodb.py)
against its natural-language specification.

The development shallowly embeds the wire-protocol layer of the driver:
bytes are modelled as natural numbers (always < 256 on a real wire),
byte strings as lists of naturals, and Python strings as Lean strings
(both are sequences of Unicode scalar values).  Fallible Python code
(code that raises) is modelled with Except / Option.  Exception classes
FrancoDBError / OperationalError / AuthError / QueryError are modelled by
the PyErr inductive; only the three leaf classes are ever raised.
-/

/-- Exception taxonomy of the driver: OperationalError, AuthError, QueryError
(src/libaries/francodb.py, section 1).  The carried string is the exception
message; for exceptions whose message interpolates another Python exception
(such as "Binary parse failed: ...") the interpolated tail is abstracted away
and only the fixed text kept, since no caller inspects it. -/
inductive PyErr where
  | operational (msg : String)
  | auth (msg : String)
  | query (msg : String)
deriving DecidableEq, Repr

/-- Value produced by the binary decoder for one table cell, after the
auto-conversion in Cursor._parse_binary_body: Python int, Python float, or
the string unchanged.  A float is represented by the string it was parsed
from (the code stores float(s); no claim inspects the numeric value, and s
determines it). -/
inductive PyVal where
  | int (n : Int)
  | float (s : String)
  | text (s : String)
deriving DecidableEq, Repr

/-- Result of Cursor._parse_binary_body: the implicit Python None (when the
tag byte matches no branch and control falls off the end of the try block),
a simple-message string (tag 0x01), or the list of rows returned for tag
0x02.  Note the Python function returns only result_rows for a table; the
parsed column names are held in a local variable that is never returned. -/
inductive BinResult where
  | none
  | msg (s : String)
  | table (rows : List (List PyVal))
deriving DecidableEq, Repr

/-- Result of Cursor.execute: the string from the text/json path or the
binary-path result. -/
inductive ExecResult where
  | textR (s : String)
  | binR (r : BinResult)
deriving DecidableEq, Repr

deriving instance DecidableEq for Except

/- ===================  UTF-8  =================== -/

/-- One step of strict (CPython-style) UTF-8 decoding of a byte list:
rejects lone/misplaced continuation bytes, overlong encodings, surrogate
code points (lead 0xED limits the second byte to 0x9F) and values above
U+10FFFF (lead bytes 0xF5..0xFF rejected, lead 0xF4 limits the second byte
to 0x8F).  Truncated multi-byte sequences at the end of input fail.  This
models bytes.decode of Python in its default strict mode, as used by
Cursor._parse_text_body and Cursor._parse_binary_body. -/
def utf8DecodeAux : List Nat → Option (List Char)
  | [] => some []
  | b :: rest =>
    if b < 128 then
      (utf8DecodeAux rest).map (fun cs => Char.ofNat b :: cs)
    else if b < 194 then none
    else if b < 224 then
      match rest with
      | [] => none
      | b2 :: r =>
        if 128 ≤ b2 ∧ b2 ≤ 191 then
          (utf8DecodeAux r).map (fun cs => Char.ofNat ((b - 192) * 64 + (b2 - 128)) :: cs)
        else none
    else if b < 240 then
      match rest with
      | b2 :: b3 :: r =>
        if (if b = 224 then 160 ≤ b2 ∧ b2 ≤ 191
            else if b = 237 then 128 ≤ b2 ∧ b2 ≤ 159
            else 128 ≤ b2 ∧ b2 ≤ 191) ∧ (128 ≤ b3 ∧ b3 ≤ 191) then
          (utf8DecodeAux r).map
            (fun cs => Char.ofNat ((b - 224) * 4096 + (b2 - 128) * 64 + (b3 - 128)) :: cs)
        else none
      | _ => none
    else if b < 245 then
      match rest with
      | b2 :: b3 :: b4 :: r =>
        if (if b = 240 then 144 ≤ b2 ∧ b2 ≤ 191
            else if b = 244 then 128 ≤ b2 ∧ b2 ≤ 143
            else 128 ≤ b2 ∧ b2 ≤ 191) ∧ (128 ≤ b3 ∧ b3 ≤ 191) ∧ (128 ≤ b4 ∧ b4 ≤ 191) then
          (utf8DecodeAux r).map
            (fun cs => Char.ofNat
              ((b - 240) * 262144 + (b2 - 128) * 4096 + (b3 - 128) * 64 + (b4 - 128)) :: cs)
        else none
      | _ => none
    else none

/-- Strict UTF-8 decode of a byte list to a Python string (Option.none models
a raised UnicodeDecodeError). -/
def utf8Decode (data : List Nat) : Option String :=
  (utf8DecodeAux data).map String.mk

/-- UTF-8 encoding of one character, as produced by str.encode of Python. -/
def utf8EncodeChar (c : Char) : List Nat :=
  let n := c.toNat
  if n < 128 then [n]
  else if n < 2048 then [192 + n / 64, 128 + n % 64]
  else if n < 65536 then [224 + n / 4096, 128 + n / 64 % 64, 128 + n % 64]
  else [240 + n / 262144, 128 + n / 4096 % 64, 128 + n / 64 % 64, 128 + n % 64]

/-- UTF-8 encoding of a string (fql.encode in Cursor.execute). -/
def utf8Encode (s : String) : List Nat :=
  (s.data.map utf8EncodeChar).flatten

example : utf8Decode [104, 105] = some "hi" := rfl
example : utf8Decode [0xC3, 0xA9] = some (String.mk [Char.ofNat 233]) := rfl
example : utf8Decode [0xC3] = Option.none := rfl
example : utf8Decode [0xFF] = Option.none := rfl
example : utf8Encode "hi" = [104, 105] := rfl

/- ===================  Python string helpers  =================== -/

/-- Whitespace predicate of Python str.strip with no argument: the set of
Unicode whitespace characters recognized by CPython (ASCII whitespace,
the C1 separators, NEL, NBSP, Ogham space mark, the U+2000 block spaces,
line/paragraph separators, narrow NBSP, medium mathematical space, and
ideographic space). -/
def pyIsSpaceChar (c : Char) : Bool :=
  let n := c.toNat
  decide ((9 ≤ n ∧ n ≤ 13) ∨ (28 ≤ n ∧ n ≤ 32) ∨ n = 133 ∨ n = 160 ∨ n = 5760 ∨
    (8192 ≤ n ∧ n ≤ 8202) ∨ n = 8232 ∨ n = 8233 ∨ n = 8239 ∨ n = 8287 ∨ n = 12288)

/-- Python str.strip with no argument on a character list. -/
def pyStripL (cs : List Char) : List Char :=
  (((cs.dropWhile pyIsSpaceChar).reverse).dropWhile pyIsSpaceChar).reverse

/-- Python str.strip with no argument. -/
def pyStrip (s : String) : String :=
  String.mk (pyStripL s.data)

/-- Decides whether the first list is a leading segment of the second. -/
def leadSeg : List Char → List Char → Bool
  | [], _ => true
  | _ :: _, [] => false
  | x :: xs, y :: ys => x = y && leadSeg xs ys

/-- Decides whether the first list occurs contiguously inside the second. -/
def subSeg : List Char → List Char → Bool
  | needle, [] => leadSeg needle []
  | needle, c :: cs => leadSeg needle (c :: cs) || subSeg needle cs

/-- Python substring containment: needle in hay. -/
def pyIn (needle hay : String) : Bool :=
  subSeg needle.data hay.data

/-- Python str.startswith for a single-character argument. -/
def startsWithChar (s : String) (c : Char) : Bool :=
  match s.data with
  | [] => false
  | d :: _ => d = c

example : pyStrip "  ab " = "ab" := rfl
example : pyIn "ERROR" "AN ERROR HERE" = true := rfl
example : pyIn "ERROR" "fine" = false := rfl
example : startsWithChar (String.mk [Char.ofNat 123, 'a']) (Char.ofNat 123) = true := rfl

/- ===================  Text / json response path  =================== -/

/-- Cursor._parse_text_body: UTF-8 decode the body (UnicodeDecodeError
becomes OperationalError "Received non-text data"), strip surrounding
whitespace, and raise QueryError carrying the stripped string when it
contains "ERROR" and does not start with a left brace; otherwise return
the stripped string. -/
def parseTextBody (data : List Nat) : Except PyErr String :=
  match utf8Decode data with
  | Option.none => .error (.operational "Received non-text data")
  | Option.some s =>
    let r := pyStrip s
    if pyIn "ERROR" r && !(startsWithChar r (Char.ofNat 123)) then
      .error (.query r)
    else
      .ok r

example : parseTextBody [104, 105] = .ok "hi" := rfl
example : parseTextBody [69, 82, 82, 79, 82] = .error (.query "ERROR") := rfl
example : parseTextBody [123, 69, 82, 82, 79, 82] =
    .ok (String.mk [Char.ofNat 123, 'E', 'R', 'R', 'O', 'R']) := rfl
example : parseTextBody [255] = .error (.operational "Received non-text data") := rfl

/- ===================  Number coercion (Cursor._parse_binary_body)  =================== -/

/-- Decimal value of a character as recognized by CPython int(), float() and
str.isdigit: Unicode general category Nd.  The table here is the fragment of
Nd used by this development (ASCII, Arabic-Indic, Extended Arabic-Indic,
Devanagari, fullwidth digits); CPython recognizes further Nd ranges with the
same behaviour. -/
def decVal? (c : Char) : Option Nat :=
  let n := c.toNat
  if 48 ≤ n ∧ n ≤ 57 then some (n - 48)
  else if 1632 ≤ n ∧ n ≤ 1641 then some (n - 1632)
  else if 1776 ≤ n ∧ n ≤ 1785 then some (n - 1776)
  else if 2406 ≤ n ∧ n ≤ 2415 then some (n - 2406)
  else if 65296 ≤ n ∧ n ≤ 65305 then some (n - 65296)
  else none

/-- Characters with Unicode property Numeric_Type = Digit that are not
decimal digits: accepted by str.isdigit of CPython but rejected by int().
Fragment used here: superscript and subscript digits; CPython recognizes a
few further such characters with the same behaviour. -/
def digitNotDec (c : Char) : Bool :=
  let n := c.toNat
  decide (n = 178 ∨ n = 179 ∨ n = 185 ∨ n = 8304 ∨ (8308 ≤ n ∧ n ≤ 8313) ∨
    (8320 ≤ n ∧ n ≤ 8329))

/-- CPython str.isdigit on a character list: nonempty and every character has
Unicode Numeric_Type Digit or Decimal. -/
def pyIsDigitL (cs : List Char) : Bool :=
  !cs.isEmpty && cs.all (fun c => (decVal? c).isSome || digitNotDec c)

/-- CPython str.isdigit. -/
def pyIsDigit (s : String) : Bool :=
  pyIsDigitL s.data

/-- Value of a string of decimal digits in base 10, or Option.none if some
character is not a decimal digit (then int() raises ValueError). -/
def digitsValAux (acc : Nat) : List Char → Option Nat
  | [] => some acc
  | c :: cs =>
    match decVal? c with
    | some d => digitsValAux (acc * 10 + d) cs
    | Option.none => Option.none

/-- Value of a digit string as computed by int() on a string that passed the
isdigit-based guard of the decoder (such strings contain no whitespace, sign
or underscore, so int() succeeds exactly when all characters are decimal). -/
def digitsVal (cs : List Char) : Option Nat :=
  digitsValAux 0 cs

/-- ASCII lowercase mapping, used by the case-insensitive inf/nan forms of
float(). -/
def asciiLower (c : Char) : Char :=
  if 65 ≤ c.toNat ∧ c.toNat ≤ 90 then Char.ofNat (c.toNat + 32) else c

/-- Recognizes the special float() spellings inf, infinity and nan,
case-insensitively. -/
def isInfNan (cs : List Char) : Bool :=
  let l := cs.map asciiLower
  l = ['i', 'n', 'f'] || l = ['i', 'n', 'f', 'i', 'n', 'i', 't', 'y'] || l = ['n', 'a', 'n']

/-- Consumes a maximal run of decimal digits in which underscores may appear
only between two digits (the digit-grouping rule of CPython numeric
strings); returns the number of digits consumed and the rest.  A misplaced
underscore simply stops the run, making the overall parse fail on the
leftover underscore. -/
def takeDigRun : List Char → Nat × List Char
  | [] => (0, [])
  | [c] => if (decVal? c).isSome then (1, []) else (0, [c])
  | c :: c2 :: cs =>
    if (decVal? c).isSome then
      if c2 = '_' then
        match cs with
        | [] => (1, ['_'])
        | c3 :: cs2 =>
          if (decVal? c3).isSome then
            let (k, r) := takeDigRun (c3 :: cs2)
            (k + 1, r)
          else (1, '_' :: c3 :: cs2)
      else
        let (k, r) := takeDigRun (c2 :: cs)
        (k + 1, r)
    else (0, c :: c2 :: cs)

/-- Recognizes an optional exponent part at the end of a float() literal:
either nothing, or e/E, an optional sign and a nonempty digit run ending
the string. -/
def expTail : List Char → Bool
  | [] => true
  | 'e' :: r =>
    let r2 := match r with
      | '+' :: t => t
      | '-' :: t => t
      | t => t
    let (k, r3) := takeDigRun r2
    k ≠ 0 && r3.isEmpty
  | 'E' :: r =>
    let r2 := match r with
      | '+' :: t => t
      | '-' :: t => t
      | t => t
    let (k, r3) := takeDigRun r2
    k ≠ 0 && r3.isEmpty
  | _ => false

/-- Recognizes the numeric part of a float() literal after the optional
sign: a digit run, optionally a point with a further digit run (at least
one digit in total), then an optional exponent. -/
def floatNumTail (cs : List Char) : Bool :=
  let (k1, r1) := takeDigRun cs
  match r1 with
  | '.' :: r2 =>
    let (k2, r3) := takeDigRun r2
    if k1 + k2 = 0 then false else expTail r3
  | _ => if k1 = 0 then false else expTail r1

/-- Acceptance of CPython float(str): surrounding whitespace stripped, an
optional sign, then inf/infinity/nan (case-insensitive) or a numeric
literal with optional fraction and exponent, with decimal digits drawn from
Unicode Nd and underscores only between digits. -/
def pyFloatAccepts (s : String) : Bool :=
  let cs := pyStripL s.data
  let cs2 := match cs with
    | '+' :: t => t
    | '-' :: t => t
    | t => t
  isInfNan cs2 || floatNumTail cs2

/-- Auto-conversion of one decoded cell string in Cursor._parse_binary_body:
if the string (or the string after one leading minus sign) passes isdigit,
apply int() - which yields an integer for decimal digits and raises
ValueError (modelled as Except.error) for digit characters that are not
decimal; otherwise try float(), keeping the string as the parsed float on
success; otherwise keep the string as text. -/
def pyCoerce (s : String) : Except Unit PyVal :=
  if pyIsDigit s then
    match digitsVal s.data with
    | some n => .ok (.int (Int.ofNat n))
    | Option.none => .error ()
  else if (match s.data with
           | c :: t => c = '-' && pyIsDigitL t
           | [] => false) then
    match digitsVal s.data.tail with
    | some n => .ok (.int (-(n : Int)))
    | Option.none => .error ()
  else if pyFloatAccepts s then .ok (.float s)
  else .ok (.text s)

example : pyCoerce "1" = .ok (.int 1) := rfl
example : pyCoerce "-23" = .ok (.int (-23)) := rfl
example : pyCoerce "007" = .ok (.int 7) := rfl
example : pyCoerce "Alice" = .ok (.text "Alice") := rfl
example : pyCoerce "3.5" = .ok (.float "3.5") := rfl
example : pyCoerce "-" = .ok (.text "-") := rfl
example : pyCoerce "1e3" = .ok (.float "1e3") := rfl
example : pyCoerce " 2.5 " = .ok (.float " 2.5 ") := rfl
example : pyCoerce "nan" = .ok (.float "nan") := rfl
example : pyCoerce "1_0" = .ok (.float "1_0") := rfl
example : pyCoerce "1_" = .ok (.text "1_") := rfl
example : pyCoerce "1e" = .ok (.text "1e") := rfl
example : pyCoerce "" = .ok (.text "") := rfl
example : pyCoerce (String.mk [Char.ofNat 1635]) = .ok (.int 3) := rfl
example : pyCoerce (String.mk ['-', Char.ofNat 1635]) = .ok (.int (-3)) := rfl
example : pyCoerce (String.mk [Char.ofNat 178]) = .error () := rfl

/- ===================  Binary response decoding  =================== -/

/-- Big-endian 4-byte encoding of a 32-bit value, as produced by
struct.pack with format !I (values at least 2 to the 32 are rejected by
struct; theorems about be32 carry that bound as a hypothesis). -/
def be32 (n : Nat) : List Nat :=
  [n / 16777216 % 256, n / 65536 % 256, n / 256 % 256, n % 256]

/-- Reading struct.unpack with format !I applied to the Python slice
data[p:p+4]: the slice silently truncates, and unpack then raises
(Option.none) unless exactly 4 bytes were available. -/
def readU32 (data : List Nat) (p : Nat) : Option Nat :=
  match (data.drop p).take 4 with
  | [a, b, c, d] => some (((a * 256 + b) * 256 + c) * 256 + d)
  | _ => none

/-- Python slice data[p:p+n] followed by bytes.decode utf-8: the slice
yields whatever bytes are available (possibly fewer than n, with no error),
and only invalid UTF-8 fails. -/
def sliceStr (data : List Nat) (p n : Nat) : Option String :=
  utf8Decode ((data.drop p).take n)

/-- OperationalError raised by the catch-all handler of
Cursor._parse_binary_body for any non-QueryError exception (IndexError,
struct.error, UnicodeDecodeError, ValueError from int()); the interpolated
original exception text is abstracted away. -/
def parseFail : PyErr := .operational "Binary parse failed"

/-- Column-header loop of the table branch: for each of the given number of
columns, skip 1 reserved type byte (the code advances ptr without reading
it), read a 4-byte big-endian name length at p+1, then the name bytes.
Returns the decoded names and the final ptr.  Mirrors that the slice for
the name truncates silently while a short length field raises. -/
def parseCols (data : List Nat) : Nat → Nat → Except PyErr (List String × Nat)
  | p, 0 => .ok ([], p)
  | p, k + 1 =>
    match readU32 data (p + 1) with
    | Option.none => .error parseFail
    | some nl =>
      match sliceStr data (p + 5) nl with
      | Option.none => .error parseFail
      | some name =>
        match parseCols data (p + 5 + nl) k with
        | .ok (ns, q) => .ok (name :: ns, q)
        | .error e => .error e

/-- Cell loop for one row: for each of the given number of columns, read a
4-byte big-endian value length, the value bytes, and auto-convert the
decoded string (a ValueError from int() aborts the whole parse). -/
def parseVals (data : List Nat) : Nat → Nat → Except PyErr (List PyVal × Nat)
  | p, 0 => .ok ([], p)
  | p, k + 1 =>
    match readU32 data p with
    | Option.none => .error parseFail
    | some vl =>
      match sliceStr data (p + 4) vl with
      | Option.none => .error parseFail
      | some vs =>
        match pyCoerce vs with
        | .error _ => .error parseFail
        | .ok v =>
          match parseVals data (p + 4 + vl) k with
          | .ok (tl, q) => .ok (v :: tl, q)
          | .error e => .error e

/-- Row loop of the table branch: the declared number of rows, each with the
declared number of columns. -/
def parseRows (data : List Nat) (c : Nat) : Nat → Nat → Except PyErr (List (List PyVal) × Nat)
  | p, 0 => .ok ([], p)
  | p, r + 1 =>
    match parseVals data p c with
    | .error e => .error e
    | .ok (row, q) =>
      match parseRows data c q r with
      | .ok (rws, q2) => .ok (row :: rws, q2)
      | .error e => .error e

/-- Cursor._parse_binary_body on the pre-fetched body bytes.  The first byte
dispatches: 0xFF raises QueryError "Server Error: " plus the message, 0x01
returns the message string, 0x02 parses column metadata (names are kept in
a local and dropped from the return value, exactly as the Python code
returns only result_rows) and then the rows.  Any other tag matches no
branch and the function returns Python None.  An empty body raises
IndexError on data[0], mapped to the catch-all OperationalError. -/
def decodeBinaryBody (data : List Nat) : Except PyErr BinResult :=
  match data with
  | [] => .error parseFail
  | t :: _ =>
    if t = 255 then
      match readU32 data 1 with
      | Option.none => .error parseFail
      | some ml =>
        match sliceStr data 5 ml with
        | Option.none => .error parseFail
        | some emsg => .error (.query ("Server Error: " ++ emsg))
    else if t = 1 then
      match readU32 data 1 with
      | Option.none => .error parseFail
      | some ml =>
        match sliceStr data 5 ml with
        | Option.none => .error parseFail
        | some m => .ok (.msg m)
    else if t = 2 then
      match readU32 data 1 with
      | Option.none => .error parseFail
      | some nc =>
        match readU32 data 5 with
        | Option.none => .error parseFail
        | some nr =>
          match parseCols data 9 nc with
          | .error e => .error e
          | .ok (_, p1) =>
            match parseRows data nc p1 nr with
            | .error e => .error e
            | .ok (rws, _) => .ok (.table rws)
    else .ok BinResult.none

example : decodeBinaryBody [] = .error parseFail := rfl
example : decodeBinaryBody [3] = .ok BinResult.none := rfl
example : decodeBinaryBody [255, 0, 0, 0, 2, 104, 105] = .error (.query "Server Error: hi") := rfl
example : decodeBinaryBody [1, 0, 0, 0, 2, 104, 105] = .ok (.msg "hi") := rfl
example : decodeBinaryBody [1, 0, 0, 0, 5, 97, 98] = .ok (.msg "ab") := rfl
example : decodeBinaryBody [1, 0, 0] = .error parseFail := rfl

/- ===================  Request framing and Cursor.execute  =================== -/

/-- Mode tag selection in Cursor.execute: CMD_JSON for the exact string
json, CMD_BINARY for the exact string binary, CMD_TEXT for everything
else.  The bytes are the ASCII codes of J, B and Q. -/
def modeTag (mode : String) : Nat :=
  if mode = "json" then 74 else if mode = "binary" then 66 else 81

/-- Outbound frame built by Cursor.execute: HEADER_STRUCT.pack of the mode
tag and the payload byte count (format !cI: one byte then a 4-byte
big-endian unsigned), concatenated with the UTF-8 payload, and written by a
single sendall call. -/
def requestBuffer (mode fql : String) : List Nat :=
  modeTag mode :: (be32 (utf8Encode fql).length ++ utf8Encode fql)

/-- Mode dispatch of the response parsing in Cursor.execute: the binary
parser for the exact mode string binary, the text parser for every other
mode (including json). -/
def parseResponse (mode : String) (body : List Nat) : Except PyErr ExecResult :=
  if mode = "binary" then (decodeBinaryBody body).map ExecResult.binR
  else (parseTextBody body).map ExecResult.textR

/-- Cursor._recv_n modelled over the successive packets the socket delivers:
recv is called while fewer than n bytes are accumulated; an empty delivery
(end of input) raises OperationalError "Connection closed by server";
otherwise the delivered packet is appended and the loop continues.  The
packet list is the sequence of recv results the transport happens to
produce; on a socket each delivery has at least one byte and at most the
requested count, which theorems state as hypotheses.  Returns the
accumulated bytes together with the packets not yet consumed. -/
def recvN (packets : List (List Nat)) (acc : List Nat) (n : Nat) :
    Except PyErr (List Nat × List (List Nat)) :=
  if n ≤ acc.length then .ok (acc, packets)
  else
    match packets with
    | [] => .error (.operational "Connection closed by server")
    | p :: ps =>
      match p with
      | [] => .error (.operational "Connection closed by server")
      | _ :: _ => recvN ps (acc ++ p) n

/-- Reading struct.unpack with format !I of an exact 4-byte buffer (used on
the response length header; _recv_n returns exactly 4 bytes there whenever
the socket honours the requested maximum). -/
def pyUnpackU32 (l : List Nat) : Option Nat :=
  match l with
  | [a, b, c, d] => some (((a * 256 + b) * 256 + c) * 256 + d)
  | _ => none

/-- Cursor.execute for a connected/unconnected session: raise
OperationalError "Database is not connected" before any I/O when the owning
session does not report itself connected; otherwise send the single request
frame, read the 4-byte response length, read that many body bytes, and
parse the body according to the mode.  The first component is the byte
buffer passed to the one sendall call (empty when nothing was sent); the
second is the returned value or raised error.  The diagnostic
last_raw_bytes buffer is not modelled (no claim reads it).  An unpack
failure on a length header of the wrong size is unreachable for bounded
deliveries and modelled as the catch-all operational error. -/
def executeModel (connected : Bool) (mode fql : String) (packets : List (List Nat)) :
    List Nat × Except PyErr ExecResult :=
  if connected = false then ([], .error (.operational "Database is not connected"))
  else
    (requestBuffer mode fql,
      match recvN packets [] 4 with
      | .error e => .error e
      | .ok (lenB, rest) =>
        match pyUnpackU32 lenB with
        | Option.none => .error parseFail
        | some respLen =>
          match recvN rest [] respLen with
          | .error e => .error e
          | .ok (body, _) => parseResponse mode body)

example : (executeModel false "text" "x" []).2 =
    .error (.operational "Database is not connected") := rfl
example : (executeModel true "text" "x" [[0, 0, 0], [2], [104], [105]]).2 =
    .ok (.textR "hi") := rfl
example : (executeModel true "text" "x" [[0, 0, 0, 3], [104]]).2 =
    .error (.operational "Connection closed by server") := rfl

/- ===================  Session and connect  =================== -/

/-- Connection state of FrancoDB: whether a socket object is held (sock is
not None) and the _connected flag. -/
structure Session where
  sock : Bool
  connected : Bool
deriving DecidableEq, Repr

/-- FrancoDB.is_connected: the _connected flag and a present socket. -/
def isConnected (s : Session) : Bool :=
  s.connected && s.sock

/-- Login query string built by FrancoDB.connect. -/
def loginQuery (username password : String) : String :=
  "LOGIN " ++ username ++ " " ++ password ++ ";"

/-- FrancoDB.connect for the case where the TCP connection itself succeeds,
specialized to an empty database argument (so the database-selection branch
is skipped); packets are the transport deliveries for the login exchange.
After create_connection the code sets _connected to True; when username and
password are both nonempty it executes the login query in text mode, and if
the resulting value contains neither OK nor SUCCESS it raises AuthError
"Login failed: " plus the response.  The except clause of connect catches
only socket.error, so an AuthError (or a QueryError raised inside execute
by the ERROR heuristic) propagates while the session keeps _connected True
and its socket; the cursor context manager runs a close that does nothing.
Returns the raised error (or ok) together with the session state after the
call. -/
def connectModel (packets : List (List Nat)) (username password : String) :
    Except PyErr Unit × Session :=
  let s : Session := { sock := true, connected := true }
  if username ≠ "" ∧ password ≠ "" then
    match (executeModel true "text" (loginQuery username password) packets).2 with
    | .error e => (.error e, s)
    | .ok r =>
      let res := match r with
        | .textR t => t
        | .binR _ => ""
      if ¬ (pyIn "OK" res = true) ∧ ¬ (pyIn "SUCCESS" res = true) then
        (.error (.auth ("Login failed: " ++ res)), s)
      else (.ok (), s)
  else (.ok (), s)

example : connectModel [[0, 0, 0, 2], [110, 111]] "bob" "wrongpass" =
    (.error (.auth "Login failed: no"), { sock := true, connected := true }) := rfl
example : connectModel [[0, 0, 0, 2], [79, 75]] "bob" "pw" =
    (.ok (), { sock := true, connected := true }) := rfl

/- ===================  Wire-layout encoder for table bodies  =================== -/

/-- Modelled from the spec: one column descriptor of the TableResult wire
layout in spec section 4.3 (the server-side encoder is not part of src/):
1 reserved type byte (written as 0 here; the decoder skips it without
reading), a 4-byte big-endian name length, then the name bytes. -/
def encCol (name : List Nat) : List Nat :=
  0 :: (be32 name.length ++ name)

/-- Modelled from the spec: one cell of the TableResult wire layout in spec
section 4.3: 4-byte big-endian value length, then the value bytes. -/
def encCell (v : List Nat) : List Nat :=
  be32 v.length ++ v

/-- Modelled from the spec: a TableResult body per spec section 4.3 with
explicitly chosen declared column and row counts (allowing bodies whose
declared counts disagree with the actual content): tag 0x02, 4-byte
big-endian declared column count and row count, the column descriptors,
then the rows cell by cell. -/
def encodeTableD (cols : List (List Nat)) (rows : List (List (List Nat)))
    (declC declR : Nat) : List Nat :=
  2 :: (be32 declC ++ be32 declR ++ (cols.map encCol).flatten ++
    (rows.map (fun r => (r.map encCell).flatten)).flatten)

/-- Modelled from the spec: a well-formed TableResult body, whose declared
counts match the content. -/
def encodeTable (cols : List (List Nat)) (rows : List (List (List Nat))) : List Nat :=
  encodeTableD cols rows cols.length rows.length

example : decodeBinaryBody (encodeTable [[97]] [[[49]]]) = .ok (.table [[.int 1]]) := rfl
example : decodeBinaryBody (encodeTable [[105, 100], [110, 97, 109, 101]]
    [[[49], [65, 108, 105, 99, 101]]]) =
    .ok (.table [[.int 1, .text "Alice"]]) := rfl
example : decodeBinaryBody (encodeTableD [[97]] [[[120]]] 1 2) = .error parseFail := rfl

/- ===================  Helper definitions for statements  =================== -/

/-- Total wrapper around pyCoerce, used in theorem statements under a
hypothesis that the coercion does not raise. -/
def coerceV (s : String) : PyVal :=
  match pyCoerce s with
  | .ok v => v
  | .error _ => .text s

/-- Stated from claim C6: a string composed entirely of ASCII digits,
optionally with a single leading minus sign. -/
def asciiDigitStr (s : String) : Bool :=
  match s.data with
  | [] => false
  | c :: t =>
    if c = '-' then !t.isEmpty && t.all (fun d => decide (48 ≤ d.toNat ∧ d.toNat ≤ 57))
    else (c :: t).all (fun d => decide (48 ≤ d.toNat ∧ d.toNat ≤ 57))

/-- Nonempty and composed entirely of Unicode decimal digits (the strings on
which int() succeeds after the isdigit-based guard). -/
def decDigitsOnly (cs : List Char) : Bool :=
  !cs.isEmpty && cs.all (fun c => (decVal? c).isSome)

/-- Stated from the amended claim C6: the coercion yields an Integer exactly
for strings of Unicode decimal digits with an optional single leading minus
sign; a string passing the isdigit guard but containing a digit character
that is not decimal makes int() raise (aborting the binary decode);
otherwise a Float exactly when float() accepts the string; otherwise the
Text unchanged. -/
def specCoerce (s : String) : Except Unit PyVal :=
  if decDigitsOnly s.data then .ok (.int (Int.ofNat ((digitsVal s.data).getD 0)))
  else if (match s.data with
           | c :: t => c = '-' && decDigitsOnly t
           | [] => false) then
    .ok (.int (-(((digitsVal s.data.tail).getD 0) : Int)))
  else if pyIsDigit s || (match s.data with
           | c :: t => c = '-' && pyIsDigitL t
           | [] => false) then .error ()
  else if pyFloatAccepts s then .ok (.float s)
  else .ok (.text s)

/-- Socket discipline for a sequence of recv deliveries against a loop that
still needs the given number of bytes: each delivery is no larger than the
byte count requested from recv at that point (a TCP recv never returns more
than asked). -/
def fitsReq : List (List Nat) → Nat → Bool
  | [], _ => true
  | p :: ps, need =>
    if need = 0 then true
    else p.length ≤ need && fitsReq ps (need - p.length)

/- ===================  Byte-layout lemmas  =================== -/

theorem be32_length (n : Nat) : (be32 n).length = 4 := rfl

theorem pyUnpackU32_be32 (n : Nat) (h : n < 4294967296) :
    pyUnpackU32 (be32 n) = some n := by
  simp only [pyUnpackU32, be32, Option.some.injEq]
  omega

theorem readU32_be32 (n : Nat) (rest : List Nat) (h : n < 4294967296) :
    readU32 (be32 n ++ rest) 0 = some n := by
  simp only [readU32, be32, List.drop_zero, List.cons_append, List.take_succ_cons,
    List.take_zero, Option.some.injEq]
  omega

theorem readU32_cons (a : Nat) (rest : List Nat) (i : Nat) :
    readU32 (a :: rest) (i + 1) = readU32 rest i := rfl

theorem sliceStr_cons (a : Nat) (rest : List Nat) (i n : Nat) :
    sliceStr (a :: rest) (i + 1) n = sliceStr rest i n := rfl

theorem readU32_shift (pre rest : List Nat) (i : Nat) :
    readU32 (pre ++ rest) (pre.length + i) = readU32 rest i := by
  unfold readU32
  rw [List.drop_append]

theorem sliceStr_shift (pre rest : List Nat) (i n : Nat) :
    sliceStr (pre ++ rest) (pre.length + i) n = sliceStr rest i n := by
  unfold sliceStr
  rw [List.drop_append]

theorem sliceStr_take (rest : List Nat) (n : Nat) :
    sliceStr rest 0 n = utf8Decode (rest.take n) := by
  unfold sliceStr
  rw [List.drop_zero]

theorem readU32_eq_none_of_short (data : List Nat) (p : Nat) (h : data.length < p + 4) :
    readU32 data p = none := by
  unfold readU32
  split
  · rename_i a b c d heq
    exfalso
    have hlen := congrArg List.length heq
    simp only [List.length_take, List.length_drop, List.length_cons, List.length_nil] at hlen
    omega
  · rfl

/- ===================  Parser shift lemmas  =================== -/

theorem parseCols_shift (pre rest : List Nat) :
    ∀ (k p : Nat),
      parseCols (pre ++ rest) (pre.length + p) k =
        (parseCols rest p k).map (fun pq => (pq.1, pre.length + pq.2)) := by
  intro k
  induction k with
  | zero => intro p; simp [parseCols, Except.map]
  | succ k ih =>
    intro p
    have e1 : pre.length + p + 1 = pre.length + (p + 1) := by omega
    have e2 : pre.length + p + 5 = pre.length + (p + 5) := by omega
    simp only [parseCols, e1, e2, readU32_shift, sliceStr_shift]
    cases h1 : readU32 rest (p + 1) with
    | none => simp [Except.map]
    | some nl =>
      simp only [Except.map]
      cases h2 : sliceStr rest (p + 5) nl with
      | none => rfl
      | some name =>
        have e3 : pre.length + (p + 5) + nl = pre.length + (p + 5 + nl) := by omega
        simp only [e3, ih (p + 5 + nl)]
        cases h3 : parseCols rest (p + 5 + nl) k with
        | error e => rfl
        | ok pq => rfl

theorem parseVals_shift (pre rest : List Nat) :
    ∀ (k p : Nat),
      parseVals (pre ++ rest) (pre.length + p) k =
        (parseVals rest p k).map (fun pq => (pq.1, pre.length + pq.2)) := by
  intro k
  induction k with
  | zero => intro p; simp [parseVals, Except.map]
  | succ k ih =>
    intro p
    have e2 : pre.length + p + 4 = pre.length + (p + 4) := by omega
    simp only [parseVals, e2, readU32_shift, sliceStr_shift]
    cases h1 : readU32 rest p with
    | none => simp [Except.map]
    | some vl =>
      simp only [Except.map]
      cases h2 : sliceStr rest (p + 4) vl with
      | none => rfl
      | some vs =>
        cases h3 : pyCoerce vs with
        | error u => simp [h3]
        | ok v =>
          have e3 : pre.length + (p + 4) + vl = pre.length + (p + 4 + vl) := by omega
          simp only [h3, e3, ih (p + 4 + vl)]
          cases h4 : parseVals rest (p + 4 + vl) k with
          | error e => rfl
          | ok pq => rfl

theorem parseRows_shift (pre rest : List Nat) (c : Nat) :
    ∀ (k p : Nat),
      parseRows (pre ++ rest) c (pre.length + p) k =
        (parseRows rest c p k).map (fun pq => (pq.1, pre.length + pq.2)) := by
  intro k
  induction k with
  | zero => intro p; simp [parseRows, Except.map]
  | succ k ih =>
    intro p
    simp only [parseRows, parseVals_shift]
    cases h1 : parseVals rest p c with
    | error e => simp [Except.map]
    | ok pq =>
      simp only [Except.map, ih pq.2]
      cases h2 : parseRows rest c pq.2 k with
      | error e => rfl
      | ok pq2 => rfl

/- ===================  Parsing encoded table pieces  =================== -/

theorem colStep (nb rest : List Nat) (k : Nat) (hlen : nb.length < 4294967296) :
    parseCols (encCol nb ++ rest) 0 (k + 1) =
      match utf8Decode nb with
      | Option.none => .error parseFail
      | some name => (parseCols rest 0 k).map (fun pq => (name :: pq.1, 5 + nb.length + pq.2)) := by
  have hd : encCol nb ++ rest = 0 :: (be32 nb.length ++ (nb ++ rest)) := by
    simp [encCol, List.append_assoc]
  rw [hd]
  simp only [parseCols]
  have h1 : readU32 (0 :: (be32 nb.length ++ (nb ++ rest))) (0 + 1) = some nb.length := by
    rw [readU32_cons]
    exact readU32_be32 _ _ hlen
  have h2 : sliceStr (0 :: (be32 nb.length ++ (nb ++ rest))) (0 + 5) nb.length =
      utf8Decode nb := by
    have hs := sliceStr_shift (0 :: be32 nb.length) (nb ++ rest) 0 nb.length
    simp only [List.length_cons, be32_length, List.cons_append, List.append_assoc,
      Nat.add_zero, Nat.zero_add] at hs ⊢
    rw [hs, sliceStr_take, List.take_left]
  have h3 : parseCols (0 :: (be32 nb.length ++ (nb ++ rest))) (0 + 5 + nb.length) k =
      (parseCols rest 0 k).map (fun pq => (pq.1, 4 + nb.length + 1 + pq.2)) := by
    have hs := parseCols_shift (0 :: (be32 nb.length ++ nb)) rest k 0
    simp only [List.length_cons, List.length_append, be32_length, List.cons_append,
      List.append_assoc, Nat.add_zero, Nat.zero_add] at hs ⊢
    rw [show 5 + nb.length = 4 + nb.length + 1 by omega]
    exact hs
  simp only [h1, h2, h3]
  cases hdec : utf8Decode nb with
  | none => rfl
  | some name =>
    cases h4 : parseCols rest 0 k with
    | error e => rfl
    | ok pq =>
      simp [Except.map]
      omega

theorem parseCols_enc :
    ∀ (ps : List (List Nat × String)) (post : List Nat),
      (∀ pr ∈ ps, pr.1.length < 4294967296 ∧ utf8Decode pr.1 = some pr.2) →
      parseCols ((ps.map (fun pr => encCol pr.1)).flatten ++ post) 0 ps.length =
        .ok (ps.map Prod.snd, ((ps.map (fun pr => encCol pr.1)).flatten).length) := by
  intro ps
  induction ps with
  | nil => intro post h; simp [parseCols]
  | cons pr tl ih =>
    intro post h
    obtain ⟨hlen, hdec⟩ := h pr (List.mem_cons_self pr tl)
    have ih2 := ih post (fun x hx => h x (List.mem_cons_of_mem pr hx))
    simp only [List.map_cons, List.flatten_cons, List.append_assoc, List.length_cons,
      List.length_append]
    rw [colStep _ _ _ hlen]
    simp only [hdec, ih2, Except.map]
    simp only [Except.ok.injEq, Prod.mk.injEq, List.cons.injEq, encCol, List.length_cons,
      List.length_append, be32_length]
    exact ⟨trivial, by omega⟩

theorem valStep (vb rest : List Nat) (k : Nat) (hlen : vb.length < 4294967296) :
    parseVals (encCell vb ++ rest) 0 (k + 1) =
      match utf8Decode vb with
      | Option.none => .error parseFail
      | some vs =>
        match pyCoerce vs with
        | .error _ => .error parseFail
        | .ok v => (parseVals rest 0 k).map (fun pq => (v :: pq.1, 4 + vb.length + pq.2)) := by
  have hd : encCell vb ++ rest = be32 vb.length ++ (vb ++ rest) := by
    simp [encCell, List.append_assoc]
  rw [hd]
  simp only [parseVals]
  have h1 : readU32 (be32 vb.length ++ (vb ++ rest)) 0 = some vb.length :=
    readU32_be32 _ _ hlen
  have h2 : sliceStr (be32 vb.length ++ (vb ++ rest)) (0 + 4) vb.length =
      utf8Decode vb := by
    have hs := sliceStr_shift (be32 vb.length) (vb ++ rest) 0 vb.length
    simp only [be32_length, Nat.add_zero, Nat.zero_add] at hs ⊢
    rw [hs, sliceStr_take, List.take_left]
  have h3 : parseVals (be32 vb.length ++ (vb ++ rest)) (0 + 4 + vb.length) k =
      (parseVals rest 0 k).map (fun pq => (pq.1, 4 + vb.length + pq.2)) := by
    have hs := parseVals_shift (be32 vb.length ++ vb) rest k 0
    simp only [List.length_append, be32_length, List.append_assoc, Nat.add_zero,
      Nat.zero_add] at hs ⊢
    exact hs
  simp only [h1, h2, h3]
  cases h4 : parseVals rest 0 k with
  | error e => rfl
  | ok pq => rfl

theorem parseVals_enc :
    ∀ (ps : List (List Nat × String)) (post : List Nat),
      (∀ pr ∈ ps, pr.1.length < 4294967296 ∧ utf8Decode pr.1 = some pr.2 ∧
        pyCoerce pr.2 ≠ .error ()) →
      parseVals ((ps.map (fun pr => encCell pr.1)).flatten ++ post) 0 ps.length =
        .ok (ps.map (fun pr => coerceV pr.2),
          ((ps.map (fun pr => encCell pr.1)).flatten).length) := by
  intro ps
  induction ps with
  | nil => intro post h; simp [parseVals]
  | cons pr tl ih =>
    intro post h
    obtain ⟨hlen, hdec, hne⟩ := h pr (List.mem_cons_self pr tl)
    have ih2 := ih post (fun x hx => h x (List.mem_cons_of_mem pr hx))
    simp only [List.map_cons, List.flatten_cons, List.append_assoc, List.length_cons,
      List.length_append]
    rw [valStep _ _ _ hlen]
    simp only [hdec]
    cases hc : pyCoerce pr.2 with
    | error u => exact absurd hc hne
    | ok v =>
      have hcv : coerceV pr.2 = v := by simp [coerceV, hc]
      simp only [ih2, Except.map, hcv]
      simp only [Except.ok.injEq, Prod.mk.injEq, List.cons.injEq, encCell,
        List.length_append, be32_length]

theorem parseRows_enc :
    ∀ (rs : List (List (List Nat × String))) (post : List Nat) (c : Nat),
      (∀ row ∈ rs, row.length = c ∧ ∀ pr ∈ row, pr.1.length < 4294967296 ∧
        utf8Decode pr.1 = some pr.2 ∧ pyCoerce pr.2 ≠ .error ()) →
      parseRows ((rs.map (fun row => (row.map (fun pr => encCell pr.1)).flatten)).flatten
          ++ post) c 0 rs.length =
        .ok (rs.map (fun row => row.map (fun pr => coerceV pr.2)),
          ((rs.map (fun row => (row.map (fun pr => encCell pr.1)).flatten)).flatten).length) := by
  intro rs
  induction rs with
  | nil => intro post c h; simp [parseRows]
  | cons row tl ih =>
    intro post c h
    obtain ⟨hlen, hcells⟩ := h row (List.mem_cons_self row tl)
    have ih2 := ih post c (fun x hx => h x (List.mem_cons_of_mem row hx))
    simp only [List.map_cons, List.flatten_cons, List.append_assoc, List.length_cons,
      List.length_append]
    simp only [parseRows]
    subst hlen
    rw [parseVals_enc row
      (((tl.map (fun row => (row.map (fun pr => encCell pr.1)).flatten)).flatten ++ post))
      hcells]
    have hs := parseRows_shift ((row.map (fun pr => encCell pr.1)).flatten)
      ((tl.map (fun row => (row.map (fun pr => encCell pr.1)).flatten)).flatten ++ post)
      row.length tl.length 0
    simp only [Nat.add_zero, Nat.zero_add, List.append_assoc] at hs
    simp only [hs, ih2, Except.map]

theorem parseVals_fail_end (data : List Nat) (p c : Nat) (hp : data.length < p + 4) :
    parseVals data p (c + 1) = .error parseFail := by
  simp only [parseVals, readU32_eq_none_of_short data p hp]

theorem parseRows_fail_end (data : List Nat) (p c r : Nat) (hp : data.length < p + 4)
    (hc : c ≠ 0) : parseRows data c p (r + 1) = .error parseFail := by
  obtain ⟨c0, rfl⟩ : ∃ c0, c = c0 + 1 := ⟨c - 1, by omega⟩
  simp only [parseRows, parseVals_fail_end data p c0 hp]

theorem parseRows_add (data : List Nat) (c : Nat) :
    ∀ (a b p : Nat),
      parseRows data c p (a + b) =
        match parseRows data c p a with
        | .error e => .error e
        | .ok pq => (parseRows data c pq.2 b).map (fun pq2 => (pq.1 ++ pq2.1, pq2.2)) := by
  intro a
  induction a with
  | zero =>
    intro b p
    simp only [Nat.zero_add, parseRows]
    cases h : parseRows data c p b with
    | error e => rfl
    | ok pq => simp [Except.map]
  | succ a ih =>
    intro b p
    rw [show a + 1 + b = (a + b) + 1 by omega]
    simp only [parseRows]
    cases h1 : parseVals data p c with
    | error e => rfl
    | ok pq =>
      simp only [ih b pq.2]
      cases h2 : parseRows data c pq.2 a with
      | error e => rfl
      | ok pq2 =>
        simp only [Except.map]
        cases h3 : parseRows data c pq2.2 b with
        | error e => rfl
        | ok pq3 => simp

/- ===================  Branch unfoldings of the binary decoder  =================== -/

theorem decodeBinaryBody_tag2 (rest : List Nat) :
    decodeBinaryBody (2 :: rest) =
      match readU32 (2 :: rest) 1 with
      | Option.none => .error parseFail
      | some nc =>
        match readU32 (2 :: rest) 5 with
        | Option.none => .error parseFail
        | some nr =>
          match parseCols (2 :: rest) 9 nc with
          | .error e => .error e
          | .ok (_, p1) =>
            match parseRows (2 :: rest) nc p1 nr with
            | .error e => .error e
            | .ok (rws, _) => .ok (.table rws) := rfl

theorem decodeBinaryBody_tag1 (rest : List Nat) :
    decodeBinaryBody (1 :: rest) =
      match readU32 (1 :: rest) 1 with
      | Option.none => .error parseFail
      | some ml =>
        match sliceStr (1 :: rest) 5 ml with
        | Option.none => .error parseFail
        | some m => .ok (.msg m) := rfl

theorem decodeBinaryBody_tagFF (rest : List Nat) :
    decodeBinaryBody (255 :: rest) =
      match readU32 (255 :: rest) 1 with
      | Option.none => .error parseFail
      | some ml =>
        match sliceStr (255 :: rest) 5 ml with
        | Option.none => .error parseFail
        | some emsg => .error (.query ("Server Error: " ++ emsg)) := rfl

/- ===================  Decoding an encoded table body  =================== -/

theorem decodeTableD_reduce (cols : List (List Nat × String))
    (rows : List (List (List Nat × String))) (declR : Nat)
    (hC : cols.length < 4294967296) (hR : declR < 4294967296)
    (hcols : ∀ pr ∈ cols, pr.1.length < 4294967296 ∧ utf8Decode pr.1 = some pr.2) :
    decodeBinaryBody (encodeTableD (cols.map Prod.fst)
        (rows.map (fun r => r.map Prod.fst)) cols.length declR) =
      match parseRows
          ((rows.map (fun row => (row.map (fun pr => encCell pr.1)).flatten)).flatten)
          cols.length 0 declR with
      | .error e => .error e
      | .ok pq => .ok (.table pq.1) := by
  set colB := (cols.map (fun pr => encCol pr.1)).flatten with hcolB
  set rowB := (rows.map (fun row => (row.map (fun pr => encCell pr.1)).flatten)).flatten
    with hrowB
  have hd : encodeTableD (cols.map Prod.fst) (rows.map (fun r => r.map Prod.fst))
      cols.length declR = 2 :: (be32 cols.length ++ (be32 declR ++ (colB ++ rowB))) := by
    simp only [encodeTableD, hcolB, hrowB, List.map_map, Function.comp_def,
      List.append_assoc]
  rw [hd, decodeBinaryBody_tag2]
  have h1 : readU32 (2 :: (be32 cols.length ++ (be32 declR ++ (colB ++ rowB)))) 1 =
      some cols.length := by
    rw [show (1 : Nat) = 0 + 1 by omega, readU32_cons]
    exact readU32_be32 _ _ hC
  have h5 : readU32 (2 :: (be32 cols.length ++ (be32 declR ++ (colB ++ rowB)))) 5 =
      some declR := by
    have hs := readU32_shift (2 :: be32 cols.length) (be32 declR ++ (colB ++ rowB)) 0
    simp only [List.length_cons, be32_length, Nat.add_zero, List.cons_append,
      List.append_assoc] at hs
    rw [hs]
    exact readU32_be32 _ _ hR
  have h9 : parseCols (2 :: (be32 cols.length ++ (be32 declR ++ (colB ++ rowB)))) 9
      cols.length = .ok (cols.map Prod.snd, 9 + colB.length) := by
    have hs := parseCols_shift (2 :: (be32 cols.length ++ be32 declR)) (colB ++ rowB)
      cols.length 0
    simp only [List.length_cons, List.length_append, be32_length, Nat.add_zero,
      List.cons_append, List.append_assoc] at hs
    rw [show (9 : Nat) = 4 + 4 + 1 by omega, hs, hcolB, parseCols_enc cols rowB hcols]
    simp [Except.map]
  rw [h1]
  simp only [h5, h9]
  have hrows : parseRows (2 :: (be32 cols.length ++ (be32 declR ++ (colB ++ rowB))))
      cols.length (9 + colB.length) declR =
      (parseRows rowB cols.length 0 declR).map
        (fun pq => (pq.1, 9 + colB.length + pq.2)) := by
    have hs := parseRows_shift (2 :: (be32 cols.length ++ (be32 declR ++ colB))) rowB
      cols.length declR 0
    simp only [List.length_cons, List.length_append, be32_length, Nat.add_zero,
      List.cons_append, List.append_assoc] at hs
    rw [show 9 + colB.length = 4 + (4 + colB.length) + 1 by omega, hs]
  simp only [hrows]
  cases hp : parseRows rowB cols.length 0 declR with
  | error e => rfl
  | ok pq => rfl

theorem decodeTable_ok (cols : List (List Nat × String))
    (rows : List (List (List Nat × String)))
    (hC : cols.length < 4294967296) (hR : rows.length < 4294967296)
    (hcols : ∀ pr ∈ cols, pr.1.length < 4294967296 ∧ utf8Decode pr.1 = some pr.2)
    (hrows : ∀ row ∈ rows, row.length = cols.length ∧ ∀ pr ∈ row,
      pr.1.length < 4294967296 ∧ utf8Decode pr.1 = some pr.2 ∧ pyCoerce pr.2 ≠ .error ()) :
    decodeBinaryBody (encodeTable (cols.map Prod.fst) (rows.map (fun r => r.map Prod.fst))) =
      .ok (.table (rows.map (fun row => row.map (fun pr => coerceV pr.2)))) := by
  have hre := parseRows_enc rows [] cols.length hrows
  simp only [List.append_nil] at hre
  have hd : encodeTable (cols.map Prod.fst) (rows.map (fun r => r.map Prod.fst)) =
      encodeTableD (cols.map Prod.fst) (rows.map (fun r => r.map Prod.fst))
        cols.length rows.length := by
    simp [encodeTable, List.length_map]
  rw [hd, decodeTableD_reduce cols rows rows.length hC hR hcols, hre]

theorem decodeTable_short (cols : List (List Nat × String))
    (rows : List (List (List Nat × String))) (declR : Nat)
    (hC : cols.length < 4294967296) (hR : declR < 4294967296)
    (hcols : ∀ pr ∈ cols, pr.1.length < 4294967296 ∧ utf8Decode pr.1 = some pr.2)
    (hrows : ∀ row ∈ rows, row.length = cols.length ∧ ∀ pr ∈ row,
      pr.1.length < 4294967296 ∧ utf8Decode pr.1 = some pr.2 ∧ pyCoerce pr.2 ≠ .error ())
    (hcne : cols ≠ []) (hshort : rows.length < declR) :
    decodeBinaryBody (encodeTableD (cols.map Prod.fst)
        (rows.map (fun r => r.map Prod.fst)) cols.length declR) = .error parseFail := by
  rw [decodeTableD_reduce cols rows declR hC hR hcols]
  have hre := parseRows_enc rows [] cols.length hrows
  simp only [List.append_nil] at hre
  set rowB := (rows.map (fun row => (row.map (fun pr => encCell pr.1)).flatten)).flatten
    with hrowB
  have hsplit := parseRows_add rowB cols.length rows.length (declR - rows.length) 0
  rw [show rows.length + (declR - rows.length) = declR by omega] at hsplit
  rw [hsplit, hre]
  have hfail : parseRows rowB cols.length rowB.length (declR - rows.length) =
      .error parseFail := by
    obtain ⟨b0, hb⟩ : ∃ b0, declR - rows.length = b0 + 1 := ⟨declR - rows.length - 1, by omega⟩
    rw [hb]
    exact parseRows_fail_end rowB rowB.length cols.length b0 (by omega)
      (by simpa using fun hn => hcne (List.length_eq_zero.mp hn))
  simp [hfail, Except.map]

/- ===================  Exact-read specification  =================== -/

theorem recvN_spec :
    ∀ (packets : List (List Nat)) (acc : List Nat) (n : Nat),
      (∀ p ∈ packets, p ≠ []) →
      fitsReq packets (n - acc.length) = true →
      (n ≤ acc.length + packets.flatten.length →
        ∃ rest, recvN packets acc n =
          .ok (acc ++ packets.flatten.take (n - acc.length), rest)) ∧
      (acc.length + packets.flatten.length < n →
        recvN packets acc n = .error (.operational "Connection closed by server")) := by
  intro packets
  induction packets with
  | nil =>
    intro acc n hne hfit
    constructor
    · intro hle
      refine ⟨[], ?_⟩
      unfold recvN
      rw [if_pos (by simp at hle; omega)]
      simp
    · intro hlt
      unfold recvN
      rw [if_neg (by simp at hlt; omega)]
  | cons p ps ih =>
    intro acc n hne hfit
    by_cases hle : n ≤ acc.length
    · constructor
      · intro _
        refine ⟨p :: ps, ?_⟩
        unfold recvN
        rw [if_pos hle]
        have h0 : n - acc.length = 0 := by omega
        simp [h0]
      · intro hlt
        exfalso
        have : (0:Nat) ≤ (p :: ps).flatten.length := Nat.zero_le _
        omega
    · have hp : p ≠ [] := hne p (List.mem_cons_self p ps)
      obtain ⟨q, qs, rfl⟩ : ∃ q qs, p = q :: qs := by
        cases p with
        | nil => exact absurd rfl hp
        | cons q qs => exact ⟨q, qs, rfl⟩
      have hfit1 : (q :: qs).length ≤ n - acc.length ∧
          fitsReq ps (n - acc.length - (q :: qs).length) = true := by
        unfold fitsReq at hfit
        rw [if_neg (by omega)] at hfit
        simpa [Bool.and_eq_true, decide_eq_true_eq] using hfit
      have hfit2 : fitsReq ps (n - (acc ++ q :: qs).length) = true := by
        rw [List.length_append,
          show n - (acc.length + (q :: qs).length) = n - acc.length - (q :: qs).length
            by omega]
        exact hfit1.2
      have hne2 : ∀ x ∈ ps, x ≠ [] := fun x hx => hne x (List.mem_cons_of_mem _ hx)
      obtain ⟨ih1, ih2⟩ := ih (acc ++ q :: qs) n hne2 hfit2
      have hflat : ((q :: qs) :: ps).flatten.length = (q :: qs).length + ps.flatten.length := by
        rw [List.flatten_cons, List.length_append]
      have hlapp : (acc ++ q :: qs).length = acc.length + (q :: qs).length :=
        List.length_append acc (q :: qs)
      constructor
      · intro hle2
        obtain ⟨rest, hr⟩ := ih1 (by omega)
        refine ⟨rest, ?_⟩
        unfold recvN
        rw [if_neg hle]
        show recvN ps (acc ++ q :: qs) n = _
        rw [hr]
        have hgoal : (acc ++ q :: qs) ++ ps.flatten.take (n - (acc ++ q :: qs).length) =
            acc ++ ((q :: qs) :: ps).flatten.take (n - acc.length) := by
          rw [List.flatten_cons, hlapp,
            show n - (acc.length + (q :: qs).length) = n - acc.length - (q :: qs).length
              by omega]
          have hm := hfit1.1
          set m := n - acc.length - (q :: qs).length with hmdef
          rw [show n - acc.length = (q :: qs).length + m by omega]
          rw [List.take_append, List.append_assoc]
        rw [hgoal]
      · intro hlt
        unfold recvN
        rw [if_neg hle]
        show recvN ps (acc ++ q :: qs) n = _
        exact ih2 (by omega)

/- ===================  Characterization of the cell coercion  =================== -/

theorem digitsValAux_some (cs : List Char) :
    ∀ acc, (∀ c ∈ cs, (decVal? c).isSome = true) → ∃ n, digitsValAux acc cs = some n := by
  induction cs with
  | nil => intro acc _; exact ⟨acc, rfl⟩
  | cons c t ih =>
    intro acc h
    have hc := h c (List.mem_cons_self c t)
    obtain ⟨d, hd⟩ := Option.isSome_iff_exists.mp hc
    simp only [digitsValAux, hd]
    exact ih _ (fun x hx => h x (List.mem_cons_of_mem _ hx))

theorem digitsValAux_none (cs : List Char) :
    ∀ acc, ¬ (∀ c ∈ cs, (decVal? c).isSome = true) → digitsValAux acc cs = none := by
  induction cs with
  | nil => intro acc h; exact absurd (fun c hc => absurd hc (List.not_mem_nil c)) h
  | cons c t ih =>
    intro acc h
    cases hd : decVal? c with
    | none => simp [digitsValAux, hd]
    | some d =>
      simp only [digitsValAux, hd]
      refine ih _ (fun hall => h ?_)
      intro x hx
      rcases List.mem_cons.mp hx with rfl | hx2
      · simp [hd]
      · exact hall x hx2

theorem decDigitsOnly_imp_isdigit (cs : List Char) (h : decDigitsOnly cs = true) :
    pyIsDigitL cs = true := by
  simp only [decDigitsOnly, Bool.and_eq_true, List.all_eq_true] at h
  simp only [pyIsDigitL, Bool.and_eq_true, List.all_eq_true]
  exact ⟨h.1, fun c hc => by simp [h.2 c hc]⟩

theorem decDigitsOnly_of_isdigit_all (cs : List Char) (h : pyIsDigitL cs = true)
    (hall : ∀ c ∈ cs, (decVal? c).isSome = true) : decDigitsOnly cs = true := by
  simp only [pyIsDigitL, Bool.and_eq_true, List.all_eq_true] at h
  simp only [decDigitsOnly, Bool.and_eq_true, List.all_eq_true]
  exact ⟨h.1, hall⟩

theorem decDigitsOnly_false_of_not_all (cs : List Char)
    (hall : ¬ ∀ c ∈ cs, (decVal? c).isSome = true) : decDigitsOnly cs = false := by
  rw [Bool.eq_false_iff]
  intro hx
  simp only [decDigitsOnly, Bool.and_eq_true, List.all_eq_true] at hx
  exact hall hx.2

theorem decDigitsOnly_false_of_not_isdigit (cs : List Char)
    (h : pyIsDigitL cs = false) : decDigitsOnly cs = false := by
  rw [Bool.eq_false_iff]
  intro hx
  rw [decDigitsOnly_imp_isdigit cs hx] at h
  exact Bool.noConfusion h

theorem pyCoerce_eq_specCoerce (s : String) : pyCoerce s = specCoerce s := by
  unfold pyCoerce specCoerce pyIsDigit
  rcases hs : s.data with _ | ⟨c, t⟩
  · simp [pyIsDigitL, decDigitsOnly]
  · simp only [List.tail_cons]
    by_cases hc : c = '-'
    · subst hc
      have hnd : pyIsDigitL ('-' :: t) = false := by
        simp [pyIsDigitL, decVal?, digitNotDec]
      have hndd : decDigitsOnly ('-' :: t) = false :=
        decDigitsOnly_false_of_not_isdigit _ hnd
      by_cases hdig : pyIsDigitL t = true
      · by_cases hall : ∀ x ∈ t, (decVal? x).isSome = true
        · obtain ⟨n, hn⟩ := digitsValAux_some t 0 hall
          have hn2 : digitsVal t = some n := hn
          have hdt := decDigitsOnly_of_isdigit_all t hdig hall
          simp [hnd, hndd, hdig, hdt, hn2]
        · have hnone : digitsVal t = none := digitsValAux_none t 0 hall
          have hdt : decDigitsOnly t = false := decDigitsOnly_false_of_not_all t hall
          simp [hnd, hndd, hdig, hdt, hnone]
      · have hdigf : pyIsDigitL t = false := by
          rw [Bool.eq_false_iff]; exact hdig
        have hdt : decDigitsOnly t = false :=
          decDigitsOnly_false_of_not_isdigit t hdigf
        simp [hnd, hndd, hdigf, hdt]
    · have hcb : (decide (c = '-')) = false := by
        simp [hc]
      by_cases hdig : pyIsDigitL (c :: t) = true
      · by_cases hall : ∀ x ∈ c :: t, (decVal? x).isSome = true
        · obtain ⟨n, hn⟩ := digitsValAux_some (c :: t) 0 hall
          have hn2 : digitsVal (c :: t) = some n := hn
          have hdt := decDigitsOnly_of_isdigit_all _ hdig hall
          simp [hcb, hdig, hdt, hn2]
        · have hnone : digitsVal (c :: t) = none := digitsValAux_none _ 0 hall
          have hdt : decDigitsOnly (c :: t) = false := decDigitsOnly_false_of_not_all _ hall
          simp [hcb, hdig, hdt, hnone]
      · have hdigf : pyIsDigitL (c :: t) = false := by
          rw [Bool.eq_false_iff]; exact hdig
        have hdt : decDigitsOnly (c :: t) = false :=
          decDigitsOnly_false_of_not_isdigit _ hdigf
        simp [hcb, hdigf, hdt]

/- ===================  Claim theorems  =================== -/

/-- Claim C1 counterexample: decoding the binary body consisting of the single
unrecognized tag byte 0x03 does not raise any error; the Python function falls
off the end of its if/elif chain and returns None, so the claim that every
unrecognized tag raises a decode/protocol-violation error is false. -/
theorem franco_c1_cex : decodeBinaryBody [3] = .ok BinResult.none := rfl

/-- Claim C1 (amended): for every binary-mode response body whose first byte
is outside the set of recognized tags 0xFF, 0x01, 0x02, decoding matches no
branch of Cursor._parse_binary_body and returns Python None without raising;
no decode error is produced for an unrecognized tag. -/
theorem franco_c1 (t : Nat) (rest : List Nat) (h1 : t ≠ 255) (h2 : t ≠ 1) (h3 : t ≠ 2) :
    decodeBinaryBody (t :: rest) = .ok BinResult.none := by
  simp only [decodeBinaryBody]
  rw [if_neg h1, if_neg h2, if_neg h3]

/-- Claim C1 witness: the amended theorem evaluated at tag 3 with trailing
bytes. -/
theorem franco_c1_witness : decodeBinaryBody (3 :: [0, 1, 2]) = .ok BinResult.none :=
  franco_c1 3 [0, 1, 2] (by decide) (by decide) (by decide)

/-- Claim C2 counterexample: a simple-message binary body declaring a 5-byte
message but carrying only the 2 bytes "ab" is decoded without any error: the
Python slice data[5:10] silently truncates and the decoder returns "ab", so
the claim that every body shorter than its declared lengths raises is false. -/
theorem franco_c2_cex : decodeBinaryBody [1, 0, 0, 0, 5, 97, 98] = .ok (.msg "ab") := rfl

/-- Claim C2 (amended): (1) a string field whose declared length exceeds the
remaining bytes is silently truncated - the simple-message body 0x01, be32 L,
bytes decodes to the UTF-8 reading of the first L available bytes whatever L
declares; (2) a body whose 4-byte length field itself is cut short raises the
operational parse error, for any recognized tag; (3) a table body declaring
more rows than it contains (with at least one column) raises the operational
parse error - in particular the num_rows = 2 with one row case of the spec. -/
theorem franco_c2 :
    (∀ (ml : Nat) (msgBytes : List Nat) (s : String), ml < 4294967296 →
      utf8Decode (msgBytes.take ml) = some s →
      decodeBinaryBody (1 :: (be32 ml ++ msgBytes)) = .ok (.msg s)) ∧
    (∀ (t : Nat) (rest : List Nat), (t = 255 ∨ t = 1 ∨ t = 2) → rest.length < 4 →
      decodeBinaryBody (t :: rest) = .error parseFail) ∧
    (∀ (cols : List String) (rows : List (List String)) (declR : Nat),
      cols.length < 4294967296 → declR < 4294967296 →
      (∀ s ∈ cols, (utf8Encode s).length < 4294967296 ∧
        utf8Decode (utf8Encode s) = some s) →
      (∀ r ∈ rows, r.length = cols.length ∧ ∀ v ∈ r,
        (utf8Encode v).length < 4294967296 ∧ utf8Decode (utf8Encode v) = some v ∧
        pyCoerce v ≠ .error ()) →
      cols ≠ [] → rows.length < declR →
      decodeBinaryBody (encodeTableD (cols.map utf8Encode)
        (rows.map (fun r => r.map utf8Encode)) cols.length declR) = .error parseFail) := by
  refine ⟨?_, ?_, ?_⟩
  · intro ml msgBytes s hlen hdec
    rw [decodeBinaryBody_tag1]
    have h1 : readU32 (1 :: (be32 ml ++ msgBytes)) 1 = some ml := by
      rw [show (1 : Nat) = 0 + 1 by omega, readU32_cons]
      exact readU32_be32 _ _ hlen
    have h2 : sliceStr (1 :: (be32 ml ++ msgBytes)) 5 ml = some s := by
      have hs := sliceStr_shift (1 :: be32 ml) msgBytes 0 ml
      simp only [List.length_cons, be32_length, Nat.add_zero, List.cons_append,
        List.append_assoc] at hs
      rw [hs, sliceStr_take, hdec]
    simp only [h1, h2]
  · intro t rest htag hrest
    have hnone : readU32 (t :: rest) 1 = none :=
      readU32_eq_none_of_short _ _ (by simp; omega)
    rcases htag with rfl | rfl | rfl
    · rw [decodeBinaryBody_tagFF, hnone]
    · rw [decodeBinaryBody_tag1, hnone]
    · rw [decodeBinaryBody_tag2, hnone]
  · intro cols rows declR hC hR hcols hrows hcne hshort
    have hmc : cols.map utf8Encode =
        (cols.map (fun s => (utf8Encode s, s))).map Prod.fst := by
      simp [List.map_map, Function.comp_def]
    have hmr : rows.map (fun r => r.map utf8Encode) =
        (rows.map (fun r => r.map (fun s => (utf8Encode s, s)))).map
          (fun r => r.map Prod.fst) := by
      simp [List.map_map, Function.comp_def]
    have hlc : cols.length = (cols.map (fun s => (utf8Encode s, s))).length := by
      simp
    rw [hmc, hmr, hlc]
    apply decodeTable_short
    · simpa using hC
    · exact hR
    · intro pr hpr
      obtain ⟨s, hsmem, rfl⟩ := List.mem_map.mp hpr
      exact hcols s hsmem
    · intro row hrow
      obtain ⟨r, hrmem, rfl⟩ := List.mem_map.mp hrow
      obtain ⟨hrl, hrv⟩ := hrows r hrmem
      constructor
      · simpa using hrl
      · intro pr hpr
        obtain ⟨v, hvmem, rfl⟩ := List.mem_map.mp hpr
        exact hrv v hvmem
    · simpa using hcne
    · simpa using hshort

/-- Claim C2 witness: the three amended parts evaluated concretely, the third
at the spec example of one column, one actual row and a declared row count
of 2. -/
theorem franco_c2_witness :
    decodeBinaryBody (1 :: (be32 5 ++ [97, 98])) = .ok (.msg "ab") ∧
    decodeBinaryBody (2 :: [0, 0, 0]) = .error parseFail ∧
    decodeBinaryBody (encodeTableD (["a"].map utf8Encode)
      ([["x"]].map (fun r => r.map utf8Encode)) (["a"] : List String).length 2) =
      .error parseFail :=
  ⟨franco_c2.1 5 [97, 98] "ab" (by decide) (by decide),
   franco_c2.2.1 2 [0, 0, 0] (Or.inr (Or.inr rfl)) (by decide),
   franco_c2.2.2 ["a"] [["x"]] 2 (by decide) (by decide) (by decide) (by decide)
     (by decide) (by decide)⟩

/-- Claim C3 counterexample: a json-mode response whose body is the bytes of
"ERROR" raises a query error exactly as in text mode, because execute routes
every non-binary mode through Cursor._parse_text_body; the claim that
JSON-mode bodies are always returned without raising is false. -/
theorem franco_c3_cex :
    parseResponse "json" [69, 82, 82, 79, 82] = .error (.query "ERROR") := rfl

/-- Claim C3 (amended): the ERROR-substring heuristic applies to every
non-binary mode, json included: for any such mode, a body that UTF-8 decodes
to a string whose stripped form contains "ERROR" and does not start with a
left brace raises a query error carrying the stripped string, and any other
body is returned stripped. -/
theorem franco_c3 (mode : String) (body : List Nat) (s : String) (hm : mode ≠ "binary")
    (hd : utf8Decode body = some s) :
    parseResponse mode body =
      (if pyIn "ERROR" (pyStrip s) && !(startsWithChar (pyStrip s) (Char.ofNat 123)) then
        .error (.query (pyStrip s))
      else .ok (.textR (pyStrip s))) := by
  unfold parseResponse
  rw [if_neg hm]
  unfold parseTextBody
  simp only [hd]
  cases hb : pyIn "ERROR" (pyStrip s) && !(startsWithChar (pyStrip s) (Char.ofNat 123)) with
  | false => simp [hb, Except.map]
  | true => simp [hb, Except.map]

/-- Claim C3 witness: the amended theorem evaluated at json mode on the body
" OK " (stripped to "OK", no error substring). -/
theorem franco_c3_witness :
    parseResponse "json" [32, 79, 75, 32] = .ok (.textR "OK") := by
  have h := franco_c3 "json" [32, 79, 75, 32] " OK " (by decide) (by decide)
  simpa using h

/-- Claim C4 counterexample: connecting as bob/wrongpass against a server
answering "no" (neither OK nor SUCCESS) raises AuthError, yet the session
state left behind has a socket and the connected flag still set -
is_connected() reports true - and a subsequent execute on that session runs
normally instead of failing with a not-connected error; the claim that the
session is left closed is false. -/
theorem franco_c4_cex :
    connectModel [[0, 0, 0, 2], [110, 111]] "bob" "wrongpass" =
      (.error (.auth "Login failed: no"), { sock := true, connected := true }) ∧
    isConnected { sock := true, connected := true } = true ∧
    (executeModel (isConnected { sock := true, connected := true }) "text" "PING;"
      [[0, 0, 0, 2], [79, 75]]).2 = .ok (.textR "OK") := ⟨rfl, rfl, rfl⟩

/-- Claim C4 (amended): when the login query during connect returns normally
with a response containing neither "OK" nor "SUCCESS", AuthError
"Login failed: " plus the response is raised, but the except clause of
connect catches only socket errors, so the session keeps its socket and its
connected flag: is_connected() stays true and subsequent operations are not
rejected with a not-connected error. -/
theorem franco_c4 (packets : List (List Nat)) (u p res : String)
    (hu : u ≠ "") (hp : p ≠ "")
    (hexec : (executeModel true "text" (loginQuery u p) packets).2 = .ok (.textR res))
    (hok : pyIn "OK" res = false) (hsucc : pyIn "SUCCESS" res = false) :
    connectModel packets u p =
      (.error (.auth ("Login failed: " ++ res)), { sock := true, connected := true }) ∧
    isConnected (connectModel packets u p).2 = true := by
  have hcm : connectModel packets u p =
      (.error (.auth ("Login failed: " ++ res)), { sock := true, connected := true }) := by
    unfold connectModel
    rw [if_pos ⟨hu, hp⟩, hexec]
    simp [hok, hsucc]
  exact ⟨hcm, by rw [hcm]; rfl⟩

/-- Claim C4 witness: the amended theorem evaluated at a login exchange whose
response is "no". -/
theorem franco_c4_witness :
    connectModel [[0, 0, 0, 2], [110, 111]] "bob" "pw" =
      (.error (.auth ("Login failed: " ++ "no")), { sock := true, connected := true }) ∧
    isConnected (connectModel [[0, 0, 0, 2], [110, 111]] "bob" "pw").2 = true :=
  franco_c4 [[0, 0, 0, 2], [110, 111]] "bob" "pw" "no" (by decide) (by decide)
    (by decide) (by decide) (by decide)

/-- Claim C5 counterexample: two well-formed table bodies that differ only in
their column name (one column named "a" versus "b", same single cell "x")
decode to identical results, and that result is just the row list - the
decoder returns only result_rows and discards the parsed column names, so no
decoding of either body can reproduce the transmitted column names in the
value returned to the caller, contrary to the claim. -/
theorem franco_c5_cex :
    decodeBinaryBody (encodeTable [[97]] [[[120]]]) = .ok (.table [[.text "x"]]) ∧
    decodeBinaryBody (encodeTable [[98]] [[[120]]]) = .ok (.table [[.text "x"]]) :=
  ⟨rfl, rfl⟩

/-- Claim C5 (amended): for every well-formed binary TableResult body encoded
per the wire layout with C columns and R rows (columns and cells valid UTF-8
with in-range lengths and cells whose coercion does not abort), decoding
consumes the column metadata and returns exactly R rows, each an ordered
sequence of exactly C coerced values; the column names are parsed but not
part of the returned value. -/
theorem franco_c5 (cols : List String) (rows : List (List String))
    (hC : cols.length < 4294967296) (hR : rows.length < 4294967296)
    (hcols : ∀ s ∈ cols, (utf8Encode s).length < 4294967296 ∧
      utf8Decode (utf8Encode s) = some s)
    (hrows : ∀ r ∈ rows, r.length = cols.length ∧ ∀ v ∈ r,
      (utf8Encode v).length < 4294967296 ∧ utf8Decode (utf8Encode v) = some v ∧
      pyCoerce v ≠ .error ()) :
    decodeBinaryBody (encodeTable (cols.map utf8Encode)
        (rows.map (fun r => r.map utf8Encode))) =
      .ok (.table (rows.map (fun r => r.map coerceV))) ∧
    (rows.map (fun r => r.map coerceV)).length = rows.length ∧
    (∀ rr ∈ rows.map (fun r => r.map coerceV), rr.length = cols.length) := by
  refine ⟨?_, by simp, ?_⟩
  · have hmc : cols.map utf8Encode =
        (cols.map (fun s => (utf8Encode s, s))).map Prod.fst := by
      simp [List.map_map, Function.comp_def]
    have hmr : rows.map (fun r => r.map utf8Encode) =
        (rows.map (fun r => r.map (fun s => (utf8Encode s, s)))).map
          (fun r => r.map Prod.fst) := by
      simp [List.map_map, Function.comp_def]
    rw [hmc, hmr]
    have hres := decodeTable_ok (cols.map (fun s => (utf8Encode s, s)))
      (rows.map (fun r => r.map (fun s => (utf8Encode s, s))))
      (by simpa using hC) (by simpa using hR)
      (by
        intro pr hpr
        obtain ⟨s, hsmem, rfl⟩ := List.mem_map.mp hpr
        exact hcols s hsmem)
      (by
        intro row hrow
        obtain ⟨r, hrmem, rfl⟩ := List.mem_map.mp hrow
        obtain ⟨hrl, hrv⟩ := hrows r hrmem
        refine ⟨by simpa using hrl, ?_⟩
        intro pr hpr
        obtain ⟨v, hvmem, rfl⟩ := List.mem_map.mp hpr
        exact hrv v hvmem)
    rw [hres]
    simp [List.map_map, Function.comp_def]
  · intro rr hrr
    obtain ⟨r, hrmem, rfl⟩ := List.mem_map.mp hrr
    simp [(hrows r hrmem).1]

/-- Claim C5 witness: the amended theorem evaluated at the spec example of
columns id, name and the single row "1", "Alice", whose decoded value is the
row list with id coerced to an integer. -/
theorem franco_c5_witness :
    decodeBinaryBody (encodeTable (["id", "name"].map utf8Encode)
        ([["1", "Alice"]].map (fun r => r.map utf8Encode))) =
      .ok (.table [[.int 1, .text "Alice"]]) := by
  have h := franco_c5 ["id", "name"] [["1", "Alice"]] (by decide) (by decide)
    (by decide) (by decide)
  rw [h.1]
  rfl

/-- Claim C6 counterexample: the one-character string U+0663 (an Arabic-Indic
digit) is not composed of ASCII digits, yet the coercion returns the Integer
3, because CPython str.isdigit and int() accept any Unicode decimal digit;
the claim that Integer is returned exactly for ASCII-digit strings is
false. -/
theorem franco_c6_cex :
    pyCoerce (String.mk [Char.ofNat 1635]) = .ok (.int 3) ∧
    asciiDigitStr (String.mk [Char.ofNat 1635]) = false := ⟨rfl, rfl⟩

/-- Claim C6 (amended): the coercion returns an Integer exactly when the
string consists of Unicode decimal digits, optionally after a single leading
minus sign; a string passing the isdigit guard but containing a digit
character that is not decimal (such as a superscript) makes int() raise and
aborts the decode; otherwise a Float exactly when float() accepts the
string; otherwise the string unchanged as Text - as captured by the
specification function specCoerce, which pyCoerce equals pointwise.  The
spec example still holds: the table row "1", "Alice" decodes to the Integer
1 and the Text "Alice". -/
theorem franco_c6 :
    (∀ s : String, pyCoerce s = specCoerce s) ∧
    decodeBinaryBody (encodeTable (["id", "name"].map utf8Encode)
        ([["1", "Alice"]].map (fun r => r.map utf8Encode))) =
      .ok (.table [[.int 1, .text "Alice"]]) :=
  ⟨pyCoerce_eq_specCoerce, rfl⟩

/-- Claim C7: a binary body with tag 0xFF, a 4-byte big-endian length and a
UTF-8 message raises a query error whose text is exactly "Server Error: "
followed by the message; and the spec instance with declared length 17
before the 15-byte message "table not found" also raises exactly
"Server Error: table not found" (the slice truncates to the available
bytes). -/
theorem franco_c7 :
    (∀ (msgBytes : List Nat) (s : String), msgBytes.length < 4294967296 →
      utf8Decode msgBytes = some s →
      decodeBinaryBody (255 :: (be32 msgBytes.length ++ msgBytes)) =
        .error (.query ("Server Error: " ++ s))) ∧
    decodeBinaryBody (255 :: (be32 17 ++ utf8Encode "table not found")) =
      .error (.query "Server Error: table not found") := by
  constructor
  · intro msgBytes s hlen hdec
    rw [decodeBinaryBody_tagFF]
    have h1 : readU32 (255 :: (be32 msgBytes.length ++ msgBytes)) 1 =
        some msgBytes.length := by
      rw [show (1 : Nat) = 0 + 1 by omega, readU32_cons]
      exact readU32_be32 _ _ hlen
    have h2 : sliceStr (255 :: (be32 msgBytes.length ++ msgBytes)) 5 msgBytes.length =
        some s := by
      have hs := sliceStr_shift (255 :: be32 msgBytes.length) msgBytes 0 msgBytes.length
      simp only [List.length_cons, be32_length, Nat.add_zero, List.cons_append,
        List.append_assoc] at hs
      rw [hs, sliceStr_take, List.take_length, hdec]
    simp only [h1, h2]
  · rfl

/-- Claim C7 witness: the general part evaluated at the two-byte message
"hi". -/
theorem franco_c7_witness :
    decodeBinaryBody (255 :: (be32 ([104, 105] : List Nat).length ++ [104, 105])) =
      .error (.query ("Server Error: " ++ "hi")) :=
  franco_c7.1 [104, 105] "hi" (by decide) (by decide)

/-- Claim C8: for every stream and every packetization of it into nonempty
deliveries no larger than what the loop requests, the exact-read primitive
returns exactly the first n bytes of the stream - the same buffer for every
such packetization - and raises the connection-closed operational error when
the stream ends before n bytes are available; it never returns fewer than n
bytes. -/
theorem franco_c8 (stream : List Nat) (packets : List (List Nat)) (n : Nat)
    (hjoin : packets.flatten = stream) (hne : ∀ p ∈ packets, p ≠ [])
    (hfit : fitsReq packets n = true) :
    (n ≤ stream.length → ∃ rest, recvN packets [] n = .ok (stream.take n, rest)) ∧
    (stream.length < n →
      recvN packets [] n = .error (.operational "Connection closed by server")) := by
  subst hjoin
  have h := recvN_spec packets [] n hne (by simpa using hfit)
  simpa using h

/-- Claim C8 witness: reading 2 bytes from the stream 10, 20, 30 delivered in
one-byte packets. -/
theorem franco_c8_witness :
    ∃ rest, recvN [[10], [20], [30]] [] 2 = .ok (([10, 20, 30] : List Nat).take 2, rest) :=
  (franco_c8 [10, 20, 30] [[10], [20], [30]] 2 rfl (by decide) (by decide)).1 (by decide)

/-- Claim C9: for every query string and mode, execute sends the single
contiguous buffer mode-tag byte, 4-byte big-endian payload length, UTF-8
payload, where the declared length field unpacks back to exactly the UTF-8
byte count of the query, and the tag is J for json, B for binary and Q for
every other mode. -/
theorem franco_c9 (mode fql : String) (packets : List (List Nat))
    (hlen : (utf8Encode fql).length < 4294967296) :
    (executeModel true mode fql packets).1 =
      modeTag mode :: (be32 (utf8Encode fql).length ++ utf8Encode fql) ∧
    pyUnpackU32 (be32 (utf8Encode fql).length) = some (utf8Encode fql).length ∧
    (mode ≠ "json" → mode ≠ "binary" → modeTag mode = 81) ∧
    modeTag "json" = 74 ∧ modeTag "binary" = 66 := by
  refine ⟨rfl, pyUnpackU32_be32 _ hlen, ?_, rfl, rfl⟩
  intro h1 h2
  simp [modeTag, h1, h2]

/-- Claim C9 witness: the request buffer for the text-mode query "PING;". -/
theorem franco_c9_witness :
    (executeModel true "text" "PING;" []).1 =
      modeTag "text" :: (be32 (utf8Encode "PING;").length ++ utf8Encode "PING;") :=
  (franco_c9 "text" "PING;" [] (by decide)).1

/-- Claim C10: every mode string other than exactly json and exactly binary
falls back silently to the text path: the request tag is Q (0x51) and the
response goes through the text parser with its ERROR heuristic; no
invalid-mode error exists in the code. -/
theorem franco_c10 (mode : String) (h1 : mode ≠ "json") (h2 : mode ≠ "binary") :
    modeTag mode = 81 ∧
    ∀ body : List Nat, parseResponse mode body =
      (parseTextBody body).map ExecResult.textR := by
  constructor
  · simp [modeTag, h1, h2]
  · intro body
    simp [parseResponse, h2]

/-- Claim C10 witness: the uppercase mode string "TEXT" is not recognized and
falls back to the text path, shown on an ERROR body. -/
theorem franco_c10_witness :
    modeTag "TEXT" = 81 ∧
    parseResponse "TEXT" [69, 82, 82, 79, 82] =
      (parseTextBody [69, 82, 82, 79, 82]).map ExecResult.textR :=
  ⟨(franco_c10 "TEXT" (by decide) (by decide)).1,
   (franco_c10 "TEXT" (by decide) (by decide)).2 [69, 82, 82, 79, 82]⟩
